import Mathlib

/-!
# BookmarksTreeView (src/lib/bookmarks/bookmarkstreeview.cpp)

A shallow embedding of the bookmark tree view widget: its view type, the selection queries,
the expand / collapse slots, the restoration of the expansion state and the mouse and key
handlers, followed by the properties proved about them.

The widget sits on three collaborators whose code is outside the file: the bookmark store
(entities with two persisted expansion flags), the filter proxy between the store and the view,
and the tree view of the GUI library it derives from. They are modelled below, each with a
comment saying what it stands for; the member functions of `BookmarksTreeView` are transcribed
from the file.
-/

namespace BookmarksTreeView

/-! ## Data model -/

/-- A `BookmarkItem*`: an entity of the bookmark store (a bookmark or a folder), named by an
identifier. -/
abbrev BookmarkItem := Nat

/-- A `QModelIndex`, reduced to the path of row numbers it stands for: the number of the row
itself first, then the index of its parent. The empty path is the invalid index `QModelIndex()`,
the parent of the top-level rows. -/
abbrev QModelIndex := List Nat

/-- The enumeration `BookmarksTreeView::ViewType`. -/
inductive ViewType
  | BookmarksManagerViewType
  | BookmarksSidebarViewType
  deriving DecidableEq, Repr

/-- A finite list of sibling rows of the bookmark hierarchy. Each row carries its entity, whether
the filter proxy accepts it under the current search string, its child rows, and the rows that
follow it under the same parent. -/
inductive Rows
  | nil
  | row (item : BookmarkItem) (accepted : Bool) (children : Rows) (next : Rows)
  deriving DecidableEq, Repr

/-- One row of the hierarchy. -/
structure Row where
  item : BookmarkItem
  accepted : Bool
  children : Rows
  deriving DecidableEq, Repr

/-- The row number `i` of a list of sibling rows. -/
def Rows.nth : Rows → Nat → Option Row
  | .nil, _ => none
  | .row item accepted children _, 0 => some ⟨item, accepted, children⟩
  | .row _ _ _ next, i + 1 => next.nth i

/-- The child rows reached from `rows` by the row numbers of `path`, outermost first. With
`filtered` set the walk only passes through rows the filter accepts. -/
def Rows.descend (filtered : Bool) : Rows → List Nat → Rows
  | rows, [] => rows
  | rows, j :: rest =>
    match rows.nth j with
    | some r => if filtered && !r.accepted then Rows.nil else Rows.descend filtered r.children rest
    | none => Rows.nil

/-- The path (own row number first) of the first row of `rows` holding `item`, where the rows of
`rows` are numbered from `i`. -/
def Rows.find (item : BookmarkItem) : Rows → Nat → Option QModelIndex
  | .nil, _ => none
  | .row it _ children next, i =>
    if it = item then some [i]
    else
      match Rows.find item children 0 with
      | some p => some (p ++ [i])
      | none => Rows.find item next (i + 1)

/-- The bookmark hierarchy as the view sees it through `m_model` and `m_filter`: the root entity
(which has no row) and the rows below it. -/
structure BookmarksModel where
  rootItem : BookmarkItem
  rows : Rows
  deriving DecidableEq, Repr

/-- The entities of the store as far as the view reads and writes them: the kind of each entity
and its two persisted expansion flags. -/
structure Bookmarks where
  isFolder : BookmarkItem → Bool
  expanded : BookmarkItem → Bool
  sidebarExpanded : BookmarkItem → Bool

/-- Modelled from the spec: `BookmarkItem::setExpanded` (bookmarkitem.cpp is not part of the
sources), the setter of the manager-view expansion flag of one entity. -/
def Bookmarks.setExpanded (b : Bookmarks) (item : BookmarkItem) (expanded : Bool) : Bookmarks :=
  { b with expanded := fun j => if j = item then expanded else b.expanded j }

/-- Modelled from the spec: `BookmarkItem::setSidebarExpanded` (bookmarkitem.cpp is not part of
the sources), the setter of the sidebar expansion flag of one entity. -/
def Bookmarks.setSidebarExpanded (b : Bookmarks) (item : BookmarkItem) (expanded : Bool) :
    Bookmarks :=
  { b with sidebarExpanded := fun j => if j = item then expanded else b.sidebarExpanded j }

/-- The state the member functions read and write: the member `m_type`, the state kept by the
tree view of the GUI library (hidden columns, hidden header, the expanded indexes, the selected
rows, each stored as row number and parent index), and the entities reached through
`m_bookmarks`. -/
structure TreeView where
  m_type : ViewType
  columnHidden : Nat → Bool
  headerHidden : Bool
  expandedIndexes : QModelIndex → Bool
  selection : List (Nat × QModelIndex)
  m_bookmarks : Bookmarks

/-- The three activation signals of the widget. -/
inductive Signal
  | bookmarkActivated (item : BookmarkItem)
  | bookmarkCtrlActivated (item : BookmarkItem)
  | bookmarkShiftActivated (item : BookmarkItem)
  deriving DecidableEq, Repr

/-! ## Collaborators: store model and filter proxy -/

/-- The test `QModelIndex::isValid`. -/
def isValid (index : QModelIndex) : Bool := !index.isEmpty

/-- The row of the store model at a source index. -/
def sourceRow (m : BookmarksModel) : QModelIndex → Option Row
  | [] => none
  | r :: parent => (m.rows.descend false parent.reverse).nth r

/-- The child rows the filter proxy shows under a proxy index (`m_filter->rowCount(parent)` is
their number once the rejected ones are left out). -/
def filterRows (m : BookmarksModel) (parent : QModelIndex) : Rows :=
  m.rows.descend true parent.reverse

/-- The row of the filter proxy at a proxy index: the row is there when the filter accepts it
and every row above it. -/
def filterRow (m : BookmarksModel) : QModelIndex → Option Row
  | [] => none
  | r :: parent => ((filterRows m parent).nth r).filter (fun row => row.accepted)

/-- Modelled from the spec: `BookmarksModel::item` (bookmarksmodel.cpp is not part of the
sources), the entity-by-index lookup of the store; an index that names no row gives the root
entity. -/
def BookmarksModel.item (m : BookmarksModel) (index : QModelIndex) : BookmarkItem :=
  match sourceRow m index with
  | some r => r.item
  | none => m.rootItem

/-- Modelled from the spec: `BookmarksModel::index` (bookmarksmodel.cpp is not part of the
sources), the index-by-entity lookup of the store; the root entity and an entity the store does
not hold give the invalid index. -/
def BookmarksModel.index (m : BookmarksModel) (item : BookmarkItem) : QModelIndex :=
  (m.rows.find item 0).getD []

/-- Modelled from the spec: `mapToSource` of the filter proxy. A row of the proxy is named by the
source index of the row it shows, so the mapping keeps the index of a row the proxy has and
gives the invalid index otherwise. -/
def mapToSource (m : BookmarksModel) (index : QModelIndex) : QModelIndex :=
  if (filterRow m index).isSome then index else []

/-- Modelled from the spec: `mapFromSource` of the filter proxy: the proxy index of a source row
the filter lets through, the invalid index for a row that is filtered out. -/
def mapFromSource (m : BookmarksModel) (index : QModelIndex) : QModelIndex :=
  if (filterRow m index).isSome then index else []

/-- Modelled from the spec: `parent` of the filter proxy: the index of the row one level up, the
invalid index for a top-level row and for the invalid index. -/
def filterParent (index : QModelIndex) : QModelIndex := index.tail

/-! ## The view of the GUI library -/

/-- The getter `QTreeView::isExpanded`. -/
def isExpanded (v : TreeView) (index : QModelIndex) : Bool := v.expandedIndexes index

/-- The result of `selectionModel()->selectedRows()`. -/
def selectedRows (v : TreeView) : List QModelIndex := v.selection.map (fun s => s.1 :: s.2)

/-- The setter `QTreeView::setColumnHidden`. -/
def setColumnHidden (column : Nat) (hide : Bool) (v : TreeView) : TreeView :=
  { v with columnHidden := fun c => if c = column then hide else v.columnHidden c }

/-- The setter `QTreeView::setHeaderHidden`. -/
def setHeaderHidden (hide : Bool) (v : TreeView) : TreeView :=
  { v with headerHidden := hide }

/-! ## Member functions of BookmarksTreeView -/

/-- The getter `BookmarksTreeView::viewType`. -/
def viewType (v : TreeView) : ViewType := v.m_type

/-- The slot `BookmarksTreeView::indexExpanded`. -/
def indexExpanded (m : BookmarksModel) (parent : QModelIndex) (v : TreeView) : TreeView :=
  let item := m.item (mapToSource m parent)
  match v.m_type with
  | .BookmarksManagerViewType => { v with m_bookmarks := v.m_bookmarks.setExpanded item true }
  | .BookmarksSidebarViewType =>
    { v with m_bookmarks := v.m_bookmarks.setSidebarExpanded item true }

/-- The slot `BookmarksTreeView::indexCollapsed`. -/
def indexCollapsed (m : BookmarksModel) (parent : QModelIndex) (v : TreeView) : TreeView :=
  let item := m.item (mapToSource m parent)
  match v.m_type with
  | .BookmarksManagerViewType => { v with m_bookmarks := v.m_bookmarks.setExpanded item false }
  | .BookmarksSidebarViewType =>
    { v with m_bookmarks := v.m_bookmarks.setSidebarExpanded item false }

/-- Modelled from the spec: `QTreeView::setExpanded` of the GUI library. On a valid index whose
row is not yet in the requested state it records the new state and emits `expanded(index)` or
`collapsed(index)`; the constructor of the widget connects these two signals to the slots
`indexExpanded` and `indexCollapsed`, which therefore run here. On the invalid index, or when the
row already is in the requested state, nothing happens. -/
def setExpanded (m : BookmarksModel) (index : QModelIndex) (expanded : Bool) (v : TreeView) :
    TreeView :=
  if !isValid index then v
  else if isExpanded v index = expanded then v
  else
    let v1 := { v with
      expandedIndexes := fun i => if i = index then expanded else v.expandedIndexes i }
    if expanded then indexExpanded m index v1 else indexCollapsed m index v1

/-- The row loop of `BookmarksTreeView::restoreExpandedState(parent)` over the rows `rows` found
under `parent`, the first of which has row number `i`. The proxy shows the accepted rows only, so
a rejected row and the rows below it are passed over. -/
def restoreRows (m : BookmarksModel) (parent : QModelIndex) : Nat → Rows → TreeView → TreeView
  | _, .nil, v => v
  | i, .row _ accepted children next, v =>
    if accepted then
      let index := i :: parent
      let item := m.item (mapToSource m index)
      let v1 := setExpanded m index
        (if v.m_type = ViewType.BookmarksManagerViewType then v.m_bookmarks.expanded item
         else v.m_bookmarks.sidebarExpanded item) v
      restoreRows m parent (i + 1) next (restoreRows m index 0 children v1)
    else restoreRows m parent (i + 1) next v

/-- The member `BookmarksTreeView::restoreExpandedState`. -/
def restoreExpandedState (m : BookmarksModel) (parent : QModelIndex) (v : TreeView) : TreeView :=
  restoreRows m parent 0 (filterRows m parent) v

/-- The setter `BookmarksTreeView::setViewType`. -/
def setViewType (m : BookmarksModel) (type : ViewType) (v : TreeView) : TreeView :=
  let v0 := { v with m_type := type }
  let v1 :=
    match v0.m_type with
    | .BookmarksManagerViewType => setHeaderHidden false (setColumnHidden 1 false v0)
    | .BookmarksSidebarViewType => setHeaderHidden true (setColumnHidden 1 true v0)
  restoreExpandedState m [] v1

/-- The query `BookmarksTreeView::selectedBookmarks`. -/
def selectedBookmarks (m : BookmarksModel) (v : TreeView) : List BookmarkItem :=
  (selectedRows v).map (fun index => m.item (mapToSource m index))

/-- The query `BookmarksTreeView::selectedBookmark`; the null pointer is `none`. -/
def selectedBookmark (m : BookmarksModel) (v : TreeView) : Option BookmarkItem :=
  let items := selectedBookmarks m v
  if items.length = 1 then items.head? else none

/-- The loop of `BookmarksTreeView::ensureBookmarkVisible`: while `parent` is valid, expand it
and go on with its parent. -/
def expandParents (m : BookmarksModel) : QModelIndex → TreeView → TreeView
  | [], v => v
  | r :: above, v => expandParents m above (setExpanded m (r :: above) true v)

/-- The member `BookmarksTreeView::ensureBookmarkVisible`. -/
def ensureBookmarkVisible (m : BookmarksModel) (item : BookmarkItem) (v : TreeView) : TreeView :=
  let index := mapFromSource m (m.index item)
  let parent := filterParent index
  expandParents m parent v

/-! ## Events -/

/-- The value of `Qt::LeftButton`. -/
def Qt.LeftButton : Nat := 0x00000001

/-- The value of `Qt::RightButton`. -/
def Qt.RightButton : Nat := 0x00000002

/-- The value of `Qt::MiddleButton`. -/
def Qt.MiddleButton : Nat := 0x00000004

/-- The value of `Qt::NoModifier`. -/
def Qt.NoModifier : Nat := 0x00000000

/-- The value of `Qt::ShiftModifier`. -/
def Qt.ShiftModifier : Nat := 0x02000000

/-- The value of `Qt::ControlModifier`. -/
def Qt.ControlModifier : Nat := 0x04000000

/-- The value of `Qt::AltModifier`. -/
def Qt.AltModifier : Nat := 0x08000000

/-- The value of `Qt::Key_Return`. -/
def Qt.Key_Return : Nat := 0x01000004

/-- The value of `Qt::Key_Enter`. -/
def Qt.Key_Enter : Nat := 0x01000005

/-- A `QMouseEvent` as the handlers read it: the position and the set of buttons held, as the
flag word `event->buttons()`. -/
structure QMouseEvent where
  pos : Int × Int
  buttons : Nat

/-- A `QKeyEvent` as the handler reads it: the key and the flag word `event->modifiers()`. -/
structure QKeyEvent where
  key : Nat
  modifiers : Nat

/-- What the handlers call in the GUI library: the handlers of the base class `QTreeView`, which
each override runs first and which may change the state of the view in any way (selection,
expansion, and through the connected slots the entities), the hit test `indexAt`, and the value
`QApplication::keyboardModifiers()` at the time of the event. Nothing is assumed about them; the
activation signals belong to the derived class, so the base handlers return a state and no
signal. -/
structure Toolkit where
  mousePressEvent : QMouseEvent → TreeView → TreeView
  mouseDoubleClickEvent : QMouseEvent → TreeView → TreeView
  keyPressEvent : QKeyEvent → TreeView → TreeView
  rowsInserted : QModelIndex → Int → Int → TreeView → TreeView
  indexAt : TreeView → Int × Int → QModelIndex
  keyboardModifiers : Nat

/-- The handler `BookmarksTreeView::rowsInserted`. -/
def rowsInserted (m : BookmarksModel) (qt : Toolkit) (parent : QModelIndex) (start end_ : Int)
    (v : TreeView) : TreeView :=
  qt.rowsInserted parent start end_ (restoreExpandedState m parent v)

/-- The handler `BookmarksTreeView::mousePressEvent`: the state it leaves and the activation
signals it emits, in order. -/
def mousePressEvent (m : BookmarksModel) (qt : Toolkit) (event : QMouseEvent) (v : TreeView) :
    TreeView × List Signal :=
  let v1 := qt.mousePressEvent event v
  if (selectedRows v1).length = 1 then
    let index := qt.indexAt v1 event.pos
    if isValid index then
      let item := m.item (mapToSource m index)
      let buttons := event.buttons
      let modifiers := qt.keyboardModifiers
      if buttons = Qt.LeftButton ∧ modifiers = Qt.ShiftModifier then
        (v1, [Signal.bookmarkShiftActivated item])
      else if buttons = Qt.MiddleButton ∨ modifiers = Qt.ControlModifier then
        (v1, [Signal.bookmarkCtrlActivated item])
      else (v1, [])
    else (v1, [])
  else (v1, [])

/-- The handler `BookmarksTreeView::mouseDoubleClickEvent`: the state it leaves and the
activation signals it emits, in order. -/
def mouseDoubleClickEvent (m : BookmarksModel) (qt : Toolkit) (event : QMouseEvent)
    (v : TreeView) : TreeView × List Signal :=
  let v1 := qt.mouseDoubleClickEvent event v
  if (selectedRows v1).length = 1 then
    let index := qt.indexAt v1 event.pos
    if isValid index then
      let item := m.item (mapToSource m index)
      let buttons := event.buttons
      let modifiers := qt.keyboardModifiers
      if buttons = Qt.LeftButton ∧ modifiers = Qt.NoModifier then
        (v1, [Signal.bookmarkActivated item])
      else if buttons = Qt.LeftButton ∧ modifiers = Qt.ShiftModifier then
        (v1, [Signal.bookmarkShiftActivated item])
      else (v1, [])
    else (v1, [])
  else (v1, [])

/-- The handler `BookmarksTreeView::keyPressEvent`: the state it leaves and the activation
signals it emits, in order. -/
def keyPressEvent (m : BookmarksModel) (qt : Toolkit) (event : QKeyEvent) (v : TreeView) :
    TreeView × List Signal :=
  let v1 := qt.keyPressEvent event v
  if (selectedRows v1).length = 1 then
    let index := (selectedRows v1).headD []
    let item := m.item (mapToSource m index)
    if event.key = Qt.Key_Return ∨ event.key = Qt.Key_Enter then
      if v1.m_bookmarks.isFolder item = true ∧ event.modifiers = Qt.NoModifier then
        (setExpanded m index (!isExpanded v1 index) v1, [])
      else
        let modifiers := event.modifiers
        if modifiers = Qt.NoModifier then (v1, [Signal.bookmarkActivated item])
        else if modifiers = Qt.ControlModifier then (v1, [Signal.bookmarkCtrlActivated item])
        else if modifiers = Qt.ShiftModifier then (v1, [Signal.bookmarkShiftActivated item])
        else (v1, [])
    else (v1, [])
  else (v1, [])

/-! ## Vocabulary of the statements -/

/-- The persisted flag of an entity that belongs to a view type: `expanded` for the manager,
`sidebarExpanded` for the sidebar. -/
def persistedFlag (type : ViewType) (b : Bookmarks) (item : BookmarkItem) : Bool :=
  match type with
  | .BookmarksManagerViewType => b.expanded item
  | .BookmarksSidebarViewType => b.sidebarExpanded item

/-- The expansion state the restoration gives the row at `index`: the persisted flag, for the
active view type, of the entity the row stands for. -/
def wantedState (m : BookmarksModel) (v : TreeView) (index : QModelIndex) : Bool :=
  persistedFlag v.m_type v.m_bookmarks (m.item (mapToSource m index))

/-- The row the key handler works on: the first selected row once the handler of the base class
has run (`selectionModel()->selectedRows().first()`). -/
def keyRow (qt : Toolkit) (event : QKeyEvent) (v : TreeView) : QModelIndex :=
  (selectedRows (qt.keyPressEvent event v)).headD []

/-- The rows above a row, nearest first: its parent, the parent of the parent, up to the
top-level row, each as an index of the store model. The root has no row and is not listed. -/
def ancestors : QModelIndex → List QModelIndex
  | [] => []
  | _ :: above => if above = [] then [] else above :: ancestors above

/-! ## A small hierarchy used for the concrete instances

Root entity 0. Folder 1 is the top-level row 0 and holds bookmark 2 (row 0) and bookmark 3
(row 1, rejected by the filter); bookmark 4 is the top-level row 1. -/

/-- The rows of the example hierarchy. -/
def exampleRows : Rows :=
  Rows.row 1 true (Rows.row 2 true Rows.nil (Rows.row 3 false Rows.nil Rows.nil))
    (Rows.row 4 true Rows.nil Rows.nil)

/-- The example hierarchy. -/
def exampleModel : BookmarksModel := ⟨0, exampleRows⟩

/-- Entities of the example: 0 and 1 are folders; folder 1 is marked expanded for the manager
view, bookmark 2 for the sidebar. -/
def exampleBookmarks : Bookmarks :=
  ⟨fun i => decide (i ≤ 1), fun i => decide (i = 1), fun i => decide (i = 2)⟩

/-- A manager view of the example with nothing expanded and the folder row selected. -/
def exampleView : TreeView :=
  ⟨ViewType.BookmarksManagerViewType, fun _ => false, false, fun _ => false, [(0, [])],
    exampleBookmarks⟩

/-- A library whose base handlers leave the state alone, whose hit test finds the top-level
row 1 at every position with a nonnegative ordinate and no row elsewhere, and with the given
keyboard modifiers held. -/
def exampleToolkit (modifiers : Nat) : Toolkit :=
  ⟨fun _ v => v, fun _ v => v, fun _ v => v, fun _ _ _ v => v,
    fun _ pos => if 0 ≤ pos.2 then [1] else [], modifiers⟩

/-- The hit test of the second example library: the folder row at ordinate 0, the row of
bookmark 4 at ordinate 1, no row elsewhere. -/
def exampleHit (pos : Int × Int) : QModelIndex :=
  if pos.2 = 0 then [0] else if pos.2 = 1 then [1] else []

/-- A library that acts on the example the way the tree view of the GUI library does under
extended selection. A press on a row with the control modifier held toggles that row in the
selection, a press on a row without it selects that row alone, a press off the rows clears the
selection unless control is held; a double click on a row toggles its expansion through
`setExpanded`; the key handler leaves the state alone. -/
def exampleQtToolkit (modifiers : Nat) : Toolkit where
  mousePressEvent := fun event v =>
    match exampleHit event.pos with
    | [] => if modifiers = Qt.ControlModifier then v else { v with selection := [] }
    | r :: parent =>
      if modifiers = Qt.ControlModifier then
        if (r, parent) ∈ v.selection then { v with selection := v.selection.erase (r, parent) }
        else { v with selection := v.selection ++ [(r, parent)] }
      else { v with selection := [(r, parent)] }
  mouseDoubleClickEvent := fun event v =>
    setExpanded exampleModel (exampleHit event.pos) (!isExpanded v (exampleHit event.pos)) v
  keyPressEvent := fun _ v => v
  rowsInserted := fun _ _ _ v => v
  indexAt := fun _ pos => exampleHit pos
  keyboardModifiers := modifiers

/-- A sidebar view of the example with nothing expanded and both top-level rows selected. -/
def exampleTwoSelected : TreeView :=
  { exampleView with
    m_type := ViewType.BookmarksSidebarViewType, selection := [(0, []), (1, [])] }

/-! ## Lemmas on the collaborators -/

theorem Bookmarks.setExpanded_same (b : Bookmarks) (item : BookmarkItem) :
    b.setExpanded item (b.expanded item) = b := by
  cases b with
  | mk f e s =>
    simp only [Bookmarks.setExpanded, Bookmarks.mk.injEq, true_and, and_true]
    funext j
    by_cases h : j = item
    · simp [h]
    · simp [h]

theorem Bookmarks.setSidebarExpanded_same (b : Bookmarks) (item : BookmarkItem) :
    b.setSidebarExpanded item (b.sidebarExpanded item) = b := by
  cases b with
  | mk f e s =>
    simp only [Bookmarks.setSidebarExpanded, Bookmarks.mk.injEq, true_and, and_true]
    funext j
    by_cases h : j = item
    · simp [h]
    · simp [h]

/-- What `setExpanded` never touches: the view type, the hidden columns, the hidden header, the
selection. -/
theorem setExpanded_frame (m : BookmarksModel) (index : QModelIndex) (b : Bool) (v : TreeView) :
    (setExpanded m index b v).m_type = v.m_type ∧
    (setExpanded m index b v).columnHidden = v.columnHidden ∧
    (setExpanded m index b v).headerHidden = v.headerHidden ∧
    (setExpanded m index b v).selection = v.selection := by
  unfold setExpanded indexExpanded indexCollapsed
  cases hv : v.m_type <;> cases b <;> simp only [] <;> split_ifs <;> simp [hv]

/-- The expansion state of a row other than the one `setExpanded` is called on is kept. -/
theorem setExpanded_other (m : BookmarksModel) (index t : QModelIndex) (b : Bool) (v : TreeView)
    (h : t ≠ index) : isExpanded (setExpanded m index b v) t = isExpanded v t := by
  unfold setExpanded indexExpanded indexCollapsed isExpanded
  cases hv : v.m_type <;> cases b <;> simp only [] <;> split_ifs <;> simp [h]

/-- On a valid index `setExpanded` establishes the requested state. -/
theorem setExpanded_self (m : BookmarksModel) (index : QModelIndex) (b : Bool) (v : TreeView)
    (h : index ≠ []) : isExpanded (setExpanded m index b v) index = b := by
  have hvalid : isValid index = true := by
    cases index with
    | nil => exact absurd rfl h
    | cons r above => rfl
  unfold setExpanded indexExpanded indexCollapsed
  by_cases hb : isExpanded v index = b
  · simp [hvalid, hb]
  · have hb2 : ¬ v.expandedIndexes index = b := hb
    cases hv : v.m_type <;> cases b <;> simp_all [isExpanded]

/-- Setting a row to the persisted flag of its entity leaves the entities as they are: the slot
the signal runs writes the value the flag already has. -/
theorem setExpanded_wanted_bookmarks (m : BookmarksModel) (index : QModelIndex) (v : TreeView) :
    (setExpanded m index (wantedState m v index) v).m_bookmarks = v.m_bookmarks := by
  unfold setExpanded
  by_cases hvalid : isValid index = true
  · by_cases hb : isExpanded v index = wantedState m v index
    · simp [hvalid, hb]
    · simp only [hvalid, hb, Bool.not_true, Bool.false_eq_true, if_false]
      cases hv : v.m_type
      · cases hw : wantedState m v index
        · simp only [Bool.false_eq_true, if_false, indexCollapsed, hv]
          have := Bookmarks.setExpanded_same v.m_bookmarks (m.item (mapToSource m index))
          simp only [wantedState, persistedFlag, hv] at hw
          rw [hw] at this
          exact this
        · simp only [if_true, indexExpanded, hv]
          have := Bookmarks.setExpanded_same v.m_bookmarks (m.item (mapToSource m index))
          simp only [wantedState, persistedFlag, hv] at hw
          rw [hw] at this
          exact this
      · cases hw : wantedState m v index
        · simp only [Bool.false_eq_true, if_false, indexCollapsed, hv]
          have := Bookmarks.setSidebarExpanded_same v.m_bookmarks (m.item (mapToSource m index))
          simp only [wantedState, persistedFlag, hv] at hw
          rw [hw] at this
          exact this
        · simp only [if_true, indexExpanded, hv]
          have := Bookmarks.setSidebarExpanded_same v.m_bookmarks (m.item (mapToSource m index))
          simp only [wantedState, persistedFlag, hv] at hw
          rw [hw] at this
          exact this
  · simp [hvalid]

/-! ## Lemmas on the restoration of the expansion state -/

theorem wantedState_congr (m : BookmarksModel) (v w : TreeView) (t : QModelIndex)
    (h1 : w.m_type = v.m_type) (h2 : w.m_bookmarks = v.m_bookmarks) :
    wantedState m w t = wantedState m v t := by
  simp [wantedState, h1, h2]

/-- The conditional expression of `restoreExpandedState` is the persisted flag of the active
view type. -/
theorem conditional_eq_wantedState (m : BookmarksModel) (v : TreeView) (index : QModelIndex) :
    (if v.m_type = ViewType.BookmarksManagerViewType then
        v.m_bookmarks.expanded (m.item (mapToSource m index))
      else v.m_bookmarks.sidebarExpanded (m.item (mapToSource m index))) =
    wantedState m v index := by
  cases hv : v.m_type <;> simp [wantedState, persistedFlag, hv]

/-- One step of the row loop: the row visited is set to the persisted flag of its entity. -/
theorem restoreRows_row (m : BookmarksModel) (parent : QModelIndex) (i : Nat)
    (item : BookmarkItem) (children next : Rows) (v : TreeView) :
    restoreRows m parent i (Rows.row item true children next) v =
      restoreRows m parent (i + 1) next
        (restoreRows m (i :: parent) 0 children
          (setExpanded m (i :: parent) (wantedState m v (i :: parent)) v)) := by
  simp only [restoreRows, if_true]
  rw [conditional_eq_wantedState]

theorem restoreRows_rejected (m : BookmarksModel) (parent : QModelIndex) (i : Nat)
    (item : BookmarkItem) (children next : Rows) (v : TreeView) :
    restoreRows m parent i (Rows.row item false children next) v =
      restoreRows m parent (i + 1) next v := by
  simp [restoreRows]

/-- The restoration changes nothing but the expanded indexes. -/
theorem restoreRows_frame (m : BookmarksModel) (rows : Rows) :
    ∀ (parent : QModelIndex) (i : Nat) (v : TreeView),
      (restoreRows m parent i rows v).m_type = v.m_type ∧
      (restoreRows m parent i rows v).columnHidden = v.columnHidden ∧
      (restoreRows m parent i rows v).headerHidden = v.headerHidden ∧
      (restoreRows m parent i rows v).selection = v.selection ∧
      (restoreRows m parent i rows v).m_bookmarks = v.m_bookmarks := by
  induction rows with
  | nil => intro parent i v; simp [restoreRows]
  | row item accepted children next ihc ihn =>
    intro parent i v
    cases accepted with
    | false => rw [restoreRows_rejected]; exact ihn parent (i + 1) v
    | true =>
      rw [restoreRows_row]
      obtain ⟨a1, a2, a3, a4⟩ :=
        setExpanded_frame m (i :: parent) (wantedState m v (i :: parent)) v
      have a5 := setExpanded_wanted_bookmarks m (i :: parent) v
      obtain ⟨b1, b2, b3, b4, b5⟩ := ihc (i :: parent) 0
        (setExpanded m (i :: parent) (wantedState m v (i :: parent)) v)
      obtain ⟨c1, c2, c3, c4, c5⟩ := ihn parent (i + 1)
        (restoreRows m (i :: parent) 0 children
          (setExpanded m (i :: parent) (wantedState m v (i :: parent)) v))
      exact ⟨c1.trans (b1.trans a1), c2.trans (b2.trans a2), c3.trans (b3.trans a3),
        c4.trans (b4.trans a4), c5.trans (b5.trans a5)⟩

/-- A row that shows the persisted flag of its entity still does after `setExpanded` is called
with the persisted flag of any row. -/
theorem setExpanded_wanted_keeps (m : BookmarksModel) (index t : QModelIndex) (v : TreeView)
    (h : isExpanded v t = wantedState m v t) :
    isExpanded (setExpanded m index (wantedState m v index) v) t = wantedState m v t := by
  by_cases ht : t = index
  · subst ht
    by_cases hnil : t = []
    · subst hnil
      simpa [setExpanded, isValid] using h
    · exact setExpanded_self m t _ v hnil
  · rw [setExpanded_other m index t _ v ht]; exact h

/-- A row that shows the persisted flag of its entity still does after the row loop. -/
theorem restoreRows_keeps (m : BookmarksModel) (rows : Rows) :
    ∀ (parent : QModelIndex) (i : Nat) (v : TreeView) (t : QModelIndex),
      isExpanded v t = wantedState m v t →
      isExpanded (restoreRows m parent i rows v) t = wantedState m v t := by
  induction rows with
  | nil => intro parent i v t h; simpa [restoreRows] using h
  | row item accepted children next ihc ihn =>
    intro parent i v t h
    cases accepted with
    | false => rw [restoreRows_rejected]; exact ihn parent (i + 1) v t h
    | true =>
      rw [restoreRows_row]
      have e1 := setExpanded_wanted_keeps m (i :: parent) t v h
      obtain ⟨a1, _, _, _⟩ :=
        setExpanded_frame m (i :: parent) (wantedState m v (i :: parent)) v
      have a5 := setExpanded_wanted_bookmarks m (i :: parent) v
      have w1 := wantedState_congr m v _ t a1 a5
      have e2 := ihc (i :: parent) 0 _ t (e1.trans w1.symm)
      obtain ⟨b1, _, _, _, b5⟩ := restoreRows_frame m children (i :: parent) 0
        (setExpanded m (i :: parent) (wantedState m v (i :: parent)) v)
      have w2 := wantedState_congr m _ _ t b1 b5
      have e3 := ihn parent (i + 1) _ t (e2.trans w2.symm)
      exact e3.trans (w2.trans w1)

/-- The row loop sets each accepted row of the list it walks to the persisted flag of its
entity. -/
theorem restoreRows_sets_row (m : BookmarksModel) (rows : Rows) :
    ∀ (parent : QModelIndex) (i r : Nat) (row : Row) (v : TreeView),
      rows.nth r = some row → row.accepted = true →
      isExpanded (restoreRows m parent i rows v) ((i + r) :: parent) =
        wantedState m v ((i + r) :: parent) := by
  induction rows with
  | nil => intro parent i r row v h; simp [Rows.nth] at h
  | row item accepted children next _ ihn =>
    intro parent i r row v h hacc
    cases r with
    | zero =>
      simp only [Rows.nth, Option.some.injEq] at h
      subst h
      simp only at hacc
      subst hacc
      rw [restoreRows_row, Nat.add_zero]
      have e1 : isExpanded (setExpanded m (i :: parent) (wantedState m v (i :: parent)) v)
          (i :: parent) = wantedState m v (i :: parent) :=
        setExpanded_self m (i :: parent) _ v (by simp)
      obtain ⟨a1, _, _, _⟩ :=
        setExpanded_frame m (i :: parent) (wantedState m v (i :: parent)) v
      have a5 := setExpanded_wanted_bookmarks m (i :: parent) v
      have w1 := wantedState_congr m v _ (i :: parent) a1 a5
      have e2 := restoreRows_keeps m children (i :: parent) 0 _ (i :: parent) (e1.trans w1.symm)
      obtain ⟨b1, _, _, _, b5⟩ := restoreRows_frame m children (i :: parent) 0
        (setExpanded m (i :: parent) (wantedState m v (i :: parent)) v)
      have w2 := wantedState_congr m _ _ (i :: parent) b1 b5
      have e3 := restoreRows_keeps m next parent (i + 1) _ (i :: parent) (e2.trans w2.symm)
      exact e3.trans (w2.trans w1)
    | succ r =>
      simp only [Rows.nth] at h
      have hidx : i + (r + 1) = (i + 1) + r := by omega
      rw [hidx]
      cases accepted with
      | false => rw [restoreRows_rejected]; exact ihn parent (i + 1) r row v h hacc
      | true =>
        rw [restoreRows_row]
        have e := ihn parent (i + 1) r row
          (restoreRows m (i :: parent) 0 children
            (setExpanded m (i :: parent) (wantedState m v (i :: parent)) v)) h hacc
        obtain ⟨a1, _, _, _⟩ :=
          setExpanded_frame m (i :: parent) (wantedState m v (i :: parent)) v
        have a5 := setExpanded_wanted_bookmarks m (i :: parent) v
        obtain ⟨b1, _, _, _, b5⟩ := restoreRows_frame m children (i :: parent) 0
          (setExpanded m (i :: parent) (wantedState m v (i :: parent)) v)
        exact e.trans (wantedState_congr m v _ _ (b1.trans a1) (b5.trans a5))

/-- What the row loop establishes below an accepted row of the list it walks, it establishes for
the whole list. -/
theorem restoreRows_below_row (m : BookmarksModel) (t : QModelIndex) (rows : Rows) :
    ∀ (parent : QModelIndex) (i r : Nat) (row : Row),
      rows.nth r = some row → row.accepted = true →
      (∀ v, isExpanded (restoreRows m ((i + r) :: parent) 0 row.children v) t =
        wantedState m v t) →
      ∀ v, isExpanded (restoreRows m parent i rows v) t = wantedState m v t := by
  induction rows with
  | nil => intro parent i r row h; simp [Rows.nth] at h
  | row item accepted children next _ ihn =>
    intro parent i r row h hacc hbelow v
    cases r with
    | zero =>
      simp only [Rows.nth, Option.some.injEq] at h
      subst h
      simp only at hacc
      subst hacc
      rw [restoreRows_row]
      simp only [Nat.add_zero] at hbelow
      have e2 := hbelow (setExpanded m (i :: parent) (wantedState m v (i :: parent)) v)
      obtain ⟨a1, _, _, _⟩ :=
        setExpanded_frame m (i :: parent) (wantedState m v (i :: parent)) v
      have a5 := setExpanded_wanted_bookmarks m (i :: parent) v
      have w1 := wantedState_congr m v _ t a1 a5
      obtain ⟨b1, _, _, _, b5⟩ := restoreRows_frame m children (i :: parent) 0
        (setExpanded m (i :: parent) (wantedState m v (i :: parent)) v)
      have w2 := wantedState_congr m _ _ t b1 b5
      have e3 := restoreRows_keeps m next parent (i + 1) _ t (e2.trans w2.symm)
      exact e3.trans (w2.trans w1)
    | succ r =>
      simp only [Rows.nth] at h
      have hidx : i + (r + 1) = (i + 1) + r := by omega
      rw [hidx] at hbelow
      cases accepted with
      | false => rw [restoreRows_rejected]; exact ihn parent (i + 1) r row h hacc hbelow v
      | true =>
        rw [restoreRows_row]
        have e := ihn parent (i + 1) r row h hacc hbelow
          (restoreRows m (i :: parent) 0 children
            (setExpanded m (i :: parent) (wantedState m v (i :: parent)) v))
        obtain ⟨a1, _, _, _⟩ :=
          setExpanded_frame m (i :: parent) (wantedState m v (i :: parent)) v
        have a5 := setExpanded_wanted_bookmarks m (i :: parent) v
        obtain ⟨b1, _, _, _, b5⟩ := restoreRows_frame m children (i :: parent) 0
          (setExpanded m (i :: parent) (wantedState m v (i :: parent)) v)
        exact e.trans (wantedState_congr m v _ _ (b1.trans a1) (b5.trans a5))

/-! ## Lemmas on paths through the hierarchy -/

theorem Rows.descend_nil (filtered : Bool) (path : List Nat) :
    Rows.descend filtered Rows.nil path = Rows.nil := by
  cases path with
  | nil => rfl
  | cons j rest => simp [Rows.descend, Rows.nth]

theorem Rows.descend_append (filtered : Bool) (a : List Nat) :
    ∀ (rows : Rows) (b : List Nat),
      Rows.descend filtered rows (a ++ b) =
        Rows.descend filtered (Rows.descend filtered rows a) b := by
  induction a with
  | nil => intro rows b; rfl
  | cons j rest ih =>
    intro rows b
    simp only [List.cons_append, Rows.descend]
    cases hn : rows.nth j with
    | none => simp [Rows.descend_nil]
    | some r =>
      simp only
      split_ifs
      · simp [Rows.descend_nil]
      · exact ih r.children b

/-- The rows the proxy shows under `above ++ parent` are reached from those under `parent`. -/
theorem filterRows_append (m : BookmarksModel) (above parent : QModelIndex) :
    filterRows m (above ++ parent) = Rows.descend true (filterRows m parent) above.reverse := by
  simp [filterRows, Rows.descend_append]

/-- A row of the proxy is an accepted row among the rows shown under its parent. -/
theorem filterRow_cons (m : BookmarksModel) (r : Nat) (parent : QModelIndex) (row : Row)
    (h : filterRow m (r :: parent) = some row) :
    (filterRows m parent).nth r = some row ∧ row.accepted = true := by
  simp only [filterRow] at h
  cases hn : (filterRows m parent).nth r with
  | none => simp [hn] at h
  | some x =>
    rw [hn] at h
    cases hx : x.accepted with
    | false => simp [Option.filter, hx] at h
    | true =>
      simp [Option.filter, hx] at h
      subst h
      exact ⟨rfl, hx⟩

/-- The parent of a row of the proxy below the top level is a row of the proxy. -/
theorem filterRow_parent (m : BookmarksModel) (r r2 : Nat) (above : QModelIndex)
    (h : (filterRow m (r :: r2 :: above)).isSome = true) :
    (filterRow m (r2 :: above)).isSome = true := by
  obtain ⟨row, hrow⟩ := Option.isSome_iff_exists.mp h
  obtain ⟨hn, _⟩ := filterRow_cons m r (r2 :: above) row hrow
  have hd : filterRows m (r2 :: above) =
      Rows.descend true (filterRows m above) [r2] := by
    have := filterRows_append m [r2] above
    simpa using this
  rw [hd] at hn
  simp only [Rows.descend] at hn
  cases hp : (filterRows m above).nth r2 with
  | none => simp [hp, Rows.nth] at hn
  | some x =>
    cases hx : x.accepted with
    | false => simp [hp, hx, Rows.nth] at hn
    | true => simp [filterRow, hp, Option.filter, hx]

/-- The row loop started on the rows `rows` under `parent` reaches every accepted row found by
going down from `rows` through accepted rows. -/
theorem restoreRows_reaches (m : BookmarksModel) (r : Nat) (row : Row) (path : List Nat) :
    ∀ (rows : Rows) (parent : QModelIndex),
      (Rows.descend true rows path).nth r = some row → row.accepted = true →
      ∀ v, isExpanded (restoreRows m parent 0 rows v) (r :: (path.reverse ++ parent)) =
        wantedState m v (r :: (path.reverse ++ parent)) := by
  induction path with
  | nil =>
    intro rows parent h hacc v
    have := restoreRows_sets_row m rows parent 0 r row v h hacc
    simpa using this
  | cons j rest ih =>
    intro rows parent h hacc
    simp only [Rows.descend] at h
    cases hj : rows.nth j with
    | none => simp [hj, Rows.nth] at h
    | some x =>
      cases hx : x.accepted with
      | false => simp [hj, hx, Rows.nth] at h
      | true =>
        simp only [hj, hx, Bool.not_true, Bool.and_false, Bool.false_eq_true, if_false] at h
        have hbelow := ih x.children (j :: parent) h hacc
        have hidx : r :: ((j :: rest).reverse ++ parent) = r :: (rest.reverse ++ j :: parent) := by
          simp
        rw [hidx]
        have := restoreRows_below_row m (r :: (rest.reverse ++ j :: parent)) rows parent 0 j x hj hx
        simp only [Nat.zero_add] at this
        exact this hbelow

/-- After `restoreExpandedState(parent)` every row of the proxy below `parent`, at any depth,
shows the persisted flag of its entity, and the entities are as before. -/
theorem restoreExpandedState_rows (m : BookmarksModel) (parent above : QModelIndex) (r : Nat)
    (row : Row) (v : TreeView) (h : filterRow m (r :: (above ++ parent)) = some row) :
    isExpanded (restoreExpandedState m parent v) (r :: (above ++ parent)) =
      wantedState m v (r :: (above ++ parent)) := by
  obtain ⟨hn, hacc⟩ := filterRow_cons m r (above ++ parent) row h
  rw [filterRows_append] at hn
  have := restoreRows_reaches m r row above.reverse (filterRows m parent) parent hn hacc v
  simpa [restoreExpandedState] using this

/-! ## Lemmas on the walk up the parents -/

theorem setExpanded_true_keeps (m : BookmarksModel) (index t : QModelIndex) (v : TreeView)
    (h : isExpanded v t = true) : isExpanded (setExpanded m index true v) t = true := by
  by_cases ht : t = index
  · subst ht
    by_cases hnil : t = []
    · subst hnil
      simpa [setExpanded, isValid] using h
    · exact setExpanded_self m t true v hnil
  · rw [setExpanded_other m index t true v ht]; exact h

/-- The walk only expands: an expanded row stays expanded. -/
theorem expandParents_keeps (m : BookmarksModel) (t : QModelIndex) (parent : QModelIndex) :
    ∀ v, isExpanded v t = true → isExpanded (expandParents m parent v) t = true := by
  induction parent with
  | nil => intro v h; simpa [expandParents] using h
  | cons r above ih =>
    intro v h
    simp only [expandParents]
    exact ih _ (setExpanded_true_keeps m (r :: above) t v h)

/-- The walk expands the index it starts from and every valid index above it. -/
theorem expandParents_expands (m : BookmarksModel) (t : QModelIndex) (ht : t ≠ [])
    (parent : QModelIndex) :
    ∀ v, t <:+ parent → isExpanded (expandParents m parent v) t = true := by
  induction parent with
  | nil =>
    intro v h
    exact absurd (List.suffix_nil.mp h) ht
  | cons r above ih =>
    intro v h
    simp only [expandParents]
    rcases List.suffix_cons_iff.mp h with heq | hsuf
    · subst heq
      exact expandParents_keeps m _ above _ (setExpanded_self m _ true v (by simp))
    · exact ih _ hsuf

/-- The walk leaves every row alone that is not on the way up. -/
theorem expandParents_other (m : BookmarksModel) (t : QModelIndex) (parent : QModelIndex) :
    ∀ v, parent.length < t.length →
      isExpanded (expandParents m parent v) t = isExpanded v t := by
  induction parent with
  | nil => intro v _; simp [expandParents]
  | cons r above ih =>
    intro v h
    simp only [expandParents]
    have hne : t ≠ r :: above := by
      intro heq
      subst heq
      exact absurd h (lt_irrefl _)
    rw [ih _ (by simp only [List.length_cons] at h; omega), setExpanded_other m _ t true v hne]

/-- Every row listed by `ancestors` is a valid index on the way up from the parent. -/
theorem ancestors_suffix (t : QModelIndex) :
    ∀ index : QModelIndex, t ∈ ancestors index → t ≠ [] ∧ t <:+ index.tail := by
  intro index
  induction index with
  | nil => intro h; simp [ancestors] at h
  | cons r above ih =>
    intro h
    simp only [ancestors] at h
    by_cases ha : above = []
    · simp [ha] at h
    · simp only [ha, if_false, List.mem_cons] at h
      rcases h with heq | hmem
      · subst heq
        exact ⟨ha, List.suffix_refl _⟩
      · obtain ⟨h1, h2⟩ := ih hmem
        exact ⟨h1, h2.trans (List.tail_suffix above)⟩

/-- The rows above a row of the proxy are rows of the proxy. -/
theorem ancestors_filterRow (m : BookmarksModel) (t : QModelIndex) :
    ∀ index : QModelIndex, (filterRow m index).isSome = true → t ∈ ancestors index →
      (filterRow m t).isSome = true := by
  intro index
  induction index with
  | nil => intro _ h; simp [ancestors] at h
  | cons r above ih =>
    intro hrow h
    simp only [ancestors] at h
    cases above with
    | nil => simp at h
    | cons r2 above2 =>
      have hp := filterRow_parent m r r2 above2 hrow
      simp only [reduceCtorEq, if_false, List.mem_cons] at h
      rcases h with heq | hmem
      · subst heq; exact hp
      · exact ih hp hmem

/-- A row the proxy shows is a row of the store: going down through accepted rows only finds the
rows the unfiltered walk finds. -/
theorem Rows.descend_filtered (r : Nat) (row : Row) (path : List Nat) :
    ∀ rows : Rows, (Rows.descend true rows path).nth r = some row →
      (Rows.descend false rows path).nth r = some row := by
  induction path with
  | nil => intro rows h; simpa [Rows.descend] using h
  | cons j rest ih =>
    intro rows h
    simp only [Rows.descend] at h ⊢
    cases hj : rows.nth j with
    | none => simp [hj, Rows.nth] at h
    | some x =>
      cases hx : x.accepted with
      | false => simp [hj, hx, Rows.nth] at h
      | true =>
        simp only [hj, hx, Bool.not_true, Bool.and_false, Bool.false_eq_true, if_false] at h
        simpa using ih x.children h

/-- The entity the view reads for a row of the proxy is the entity of that row. -/
theorem item_of_filterRow (m : BookmarksModel) (index : QModelIndex) (row : Row)
    (h : filterRow m index = some row) : m.item (mapToSource m index) = row.item := by
  cases index with
  | nil => simp [filterRow] at h
  | cons r parent =>
    obtain ⟨hn, _⟩ := filterRow_cons m r parent row h
    have hs : sourceRow m (r :: parent) = some row :=
      Rows.descend_filtered r row parent.reverse m.rows hn
    simp [mapToSource, h, BookmarksModel.item, hs]

/-- A selected row is a valid index. -/
theorem selectedRows_headD_ne_nil (v : TreeView) (h : (selectedRows v).length = 1) :
    (selectedRows v).headD [] ≠ [] := by
  unfold selectedRows at *
  cases hs : v.selection with
  | nil => simp [hs] at h
  | cons s rest => simp

/-! ## The properties -/

/-- C1: `selectedBookmark()` returns no entity when zero rows or two or more rows are selected;
when exactly one row is selected it returns the entity of that row, which is the single element
of `selectedBookmarks()`. -/
theorem selectedBookmark_spec (m : BookmarksModel) (v : TreeView) :
    ((selectedRows v).length = 0 ∨ 2 ≤ (selectedRows v).length →
      selectedBookmark m v = none) ∧
    ((selectedRows v).length = 1 →
      ∃ index, selectedRows v = [index] ∧
        selectedBookmarks m v = [m.item (mapToSource m index)] ∧
        selectedBookmark m v = some (m.item (mapToSource m index))) := by
  constructor
  · intro h
    have hne : ¬ (selectedRows v).length = 1 := by omega
    simp [selectedBookmark, selectedBookmarks, hne]
  · intro h
    obtain ⟨index, hindex⟩ := List.length_eq_one.mp h
    exact ⟨index, hindex, by simp [selectedBookmarks, hindex],
      by simp [selectedBookmark, selectedBookmarks, hindex]⟩

/-- C2: in the manager view type the slots `indexExpanded` and `indexCollapsed` set the flag
`expanded` of the entity of the row to true and to false, and leave the flag `sidebarExpanded`
of every entity and the flag `expanded` of every other entity as they were; in the sidebar view
type they set `sidebarExpanded` of that entity to true and to false and leave `expanded` of
every entity and `sidebarExpanded` of every other entity as they were. -/
theorem indexExpanded_indexCollapsed_flags (m : BookmarksModel) (parent : QModelIndex)
    (v : TreeView) :
    (v.m_type = ViewType.BookmarksManagerViewType →
      (indexExpanded m parent v).m_bookmarks.expanded (m.item (mapToSource m parent)) = true ∧
      (indexCollapsed m parent v).m_bookmarks.expanded (m.item (mapToSource m parent)) = false ∧
      (indexExpanded m parent v).m_bookmarks.sidebarExpanded = v.m_bookmarks.sidebarExpanded ∧
      (indexCollapsed m parent v).m_bookmarks.sidebarExpanded = v.m_bookmarks.sidebarExpanded ∧
      ∀ other, other ≠ m.item (mapToSource m parent) →
        (indexExpanded m parent v).m_bookmarks.expanded other = v.m_bookmarks.expanded other ∧
        (indexCollapsed m parent v).m_bookmarks.expanded other = v.m_bookmarks.expanded other) ∧
    (v.m_type = ViewType.BookmarksSidebarViewType →
      (indexExpanded m parent v).m_bookmarks.sidebarExpanded (m.item (mapToSource m parent))
        = true ∧
      (indexCollapsed m parent v).m_bookmarks.sidebarExpanded (m.item (mapToSource m parent))
        = false ∧
      (indexExpanded m parent v).m_bookmarks.expanded = v.m_bookmarks.expanded ∧
      (indexCollapsed m parent v).m_bookmarks.expanded = v.m_bookmarks.expanded ∧
      ∀ other, other ≠ m.item (mapToSource m parent) →
        (indexExpanded m parent v).m_bookmarks.sidebarExpanded other
          = v.m_bookmarks.sidebarExpanded other ∧
        (indexCollapsed m parent v).m_bookmarks.sidebarExpanded other
          = v.m_bookmarks.sidebarExpanded other) := by
  constructor
  · intro hv
    refine ⟨?_, ?_, ?_, ?_, ?_⟩
    · simp [indexExpanded, hv, Bookmarks.setExpanded]
    · simp [indexCollapsed, hv, Bookmarks.setExpanded]
    · simp [indexExpanded, hv, Bookmarks.setExpanded]
    · simp [indexCollapsed, hv, Bookmarks.setExpanded]
    · intro other hother
      simp [indexExpanded, indexCollapsed, hv, Bookmarks.setExpanded, hother]
  · intro hv
    refine ⟨?_, ?_, ?_, ?_, ?_⟩
    · simp [indexExpanded, hv, Bookmarks.setSidebarExpanded]
    · simp [indexCollapsed, hv, Bookmarks.setSidebarExpanded]
    · simp [indexExpanded, hv, Bookmarks.setSidebarExpanded]
    · simp [indexCollapsed, hv, Bookmarks.setSidebarExpanded]
    · intro other hother
      simp [indexExpanded, indexCollapsed, hv, Bookmarks.setSidebarExpanded, hother]

/-- C2 at a concrete input: the example view is a manager view, so expanding the folder row
sets the flag `expanded` of entity 1 and keeps its flag `sidebarExpanded`. -/
theorem indexExpanded_indexCollapsed_flags_witness :
    (indexExpanded exampleModel [0] exampleView).m_bookmarks.expanded 1 = true ∧
    (indexCollapsed exampleModel [0] exampleView).m_bookmarks.expanded 1 = false ∧
    (indexExpanded exampleModel [0] exampleView).m_bookmarks.sidebarExpanded
      = exampleView.m_bookmarks.sidebarExpanded :=
  have h := (indexExpanded_indexCollapsed_flags exampleModel [0] exampleView).1 rfl
  ⟨h.1, h.2.1, h.2.2.1⟩

/-- C6: after `setViewType(t)` the getter `viewType()` returns `t`, and column 1 and the header
are hidden exactly when `t` is the sidebar type, whatever they were before. -/
theorem setViewType_visibility (m : BookmarksModel) (type : ViewType) (v : TreeView) :
    viewType (setViewType m type v) = type ∧
    ((setViewType m type v).columnHidden 1 = true ↔ type = ViewType.BookmarksSidebarViewType) ∧
    ((setViewType m type v).headerHidden = true ↔ type = ViewType.BookmarksSidebarViewType) := by
  unfold setViewType restoreExpandedState viewType
  cases type
  · simp only []
    obtain ⟨h1, h2, h3, _⟩ := restoreRows_frame m (filterRows m []) [] 0
      (setHeaderHidden false (setColumnHidden 1 false
        { v with m_type := ViewType.BookmarksManagerViewType }))
    rw [h1, h2, h3]
    simp [setHeaderHidden, setColumnHidden]
  · simp only []
    obtain ⟨h1, h2, h3, _⟩ := restoreRows_frame m (filterRows m []) [] 0
      (setHeaderHidden true (setColumnHidden 1 true
        { v with m_type := ViewType.BookmarksSidebarViewType }))
    rw [h1, h2, h3]
    simp [setHeaderHidden, setColumnHidden]

/-- C7: after `setViewType(t)` every row of the view, at every depth, is expanded exactly when
the persisted flag of its entity that belongs to `t` is set (`expanded` for the manager,
`sidebarExpanded` for the sidebar), and the flags are the ones the entities had before the call.
The restoration is a total function: it is defined by recursion on the finite hierarchy. -/
theorem setViewType_restores_rows (m : BookmarksModel) (type : ViewType) (v : TreeView)
    (index : QModelIndex) (row : Row) (h : filterRow m index = some row) :
    isExpanded (setViewType m type v) index = persistedFlag type v.m_bookmarks row.item ∧
    (setViewType m type v).m_bookmarks = v.m_bookmarks := by
  cases index with
  | nil => simp [filterRow] at h
  | cons r above =>
    have hitem := item_of_filterRow m (r :: above) row h
    have h2 : filterRow m (r :: (above ++ [])) = some row := by simpa using h
    unfold setViewType
    cases type
    · simp only []
      have e := restoreExpandedState_rows m [] above r row
        (setHeaderHidden false (setColumnHidden 1 false
          { v with m_type := ViewType.BookmarksManagerViewType })) h2
      obtain ⟨_, _, _, _, f5⟩ := restoreRows_frame m (filterRows m []) [] 0
        (setHeaderHidden false (setColumnHidden 1 false
          { v with m_type := ViewType.BookmarksManagerViewType }))
      simp only [List.append_nil] at e
      refine ⟨?_, ?_⟩
      · rw [e]; simp [wantedState, hitem, setHeaderHidden, setColumnHidden]
      · unfold restoreExpandedState; rw [f5]; simp [setHeaderHidden, setColumnHidden]
    · simp only []
      have e := restoreExpandedState_rows m [] above r row
        (setHeaderHidden true (setColumnHidden 1 true
          { v with m_type := ViewType.BookmarksSidebarViewType })) h2
      obtain ⟨_, _, _, _, f5⟩ := restoreRows_frame m (filterRows m []) [] 0
        (setHeaderHidden true (setColumnHidden 1 true
          { v with m_type := ViewType.BookmarksSidebarViewType }))
      simp only [List.append_nil] at e
      refine ⟨?_, ?_⟩
      · rw [e]; simp [wantedState, hitem, setHeaderHidden, setColumnHidden]
      · unfold restoreExpandedState; rw [f5]; simp [setHeaderHidden, setColumnHidden]

/-- C7 at a concrete input: in the example bookmark 2 is the row 0 under the folder row 0 and is
marked expanded for the sidebar only, so switching to the sidebar type shows it expanded. -/
theorem setViewType_restores_rows_witness :
    filterRow exampleModel [0, 0] = some ⟨2, true, Rows.nil⟩ ∧
    isExpanded (setViewType exampleModel ViewType.BookmarksSidebarViewType exampleView) [0, 0]
      = true :=
  ⟨by decide,
    (setViewType_restores_rows exampleModel ViewType.BookmarksSidebarViewType exampleView [0, 0]
      ⟨2, true, Rows.nil⟩ (by decide)).1⟩

/-- C5: after the handler `rowsInserted(parent, start, end)` every row of the view below `parent`
at any depth, the newly inserted rows and the rows below them among them, is shown expanded
exactly when the persisted flag of its entity for the active view type is set, and the flags are
the ones the entities had before. The handler of the base class, which runs last, is taken to
lay the rows out without changing the expanded indexes or the entities. -/
theorem rowsInserted_restores_rows (m : BookmarksModel) (qt : Toolkit) (parent : QModelIndex)
    (start end_ : Int) (v : TreeView) (above : QModelIndex) (r : Nat) (row : Row)
    (hbase : ∀ p s e w, (qt.rowsInserted p s e w).expandedIndexes = w.expandedIndexes ∧
      (qt.rowsInserted p s e w).m_bookmarks = w.m_bookmarks)
    (h : filterRow m (r :: (above ++ parent)) = some row) :
    isExpanded (rowsInserted m qt parent start end_ v) (r :: (above ++ parent))
      = persistedFlag v.m_type v.m_bookmarks row.item ∧
    (rowsInserted m qt parent start end_ v).m_bookmarks = v.m_bookmarks := by
  have hitem := item_of_filterRow m (r :: (above ++ parent)) row h
  have e := restoreExpandedState_rows m parent above r row v h
  obtain ⟨_, _, _, _, f5⟩ := restoreRows_frame m (filterRows m parent) parent 0 v
  obtain ⟨b1, b2⟩ := hbase parent start end_ (restoreExpandedState m parent v)
  unfold rowsInserted
  refine ⟨?_, ?_⟩
  · simp only [isExpanded] at e ⊢
    rw [b1, e]
    simp [wantedState, hitem]
  · rw [b2]; exact f5

/-- C5 at a concrete input: bookmark 2 has just been inserted as row 0 under the folder row 0 of
the example; it is not marked expanded for the manager view and is shown collapsed, while in a
sidebar view, for which it is marked, it is shown expanded. -/
theorem rowsInserted_restores_rows_witness :
    isExpanded (rowsInserted exampleModel (exampleToolkit Qt.NoModifier) [0] 0 0 exampleView) [0, 0]
      = false ∧
    isExpanded (rowsInserted exampleModel (exampleToolkit Qt.NoModifier) [0] 0 0
      { exampleView with m_type := ViewType.BookmarksSidebarViewType }) [0, 0] = true :=
  ⟨(rowsInserted_restores_rows exampleModel (exampleToolkit Qt.NoModifier) [0] 0 0 exampleView []
      0 ⟨2, true, Rows.nil⟩ (fun _ _ _ _ => ⟨rfl, rfl⟩) (by decide)).1,
    (rowsInserted_restores_rows exampleModel (exampleToolkit Qt.NoModifier) [0] 0 0
      { exampleView with m_type := ViewType.BookmarksSidebarViewType } []
      0 ⟨2, true, Rows.nil⟩ (fun _ _ _ _ => ⟨rfl, rfl⟩) (by decide)).1⟩

/-- C3, as the code has it: for every entity that has a row in the view (the filter does not hide
it), after `ensureBookmarkVisible(item)` every row above the row of `item`, from its parent up to
the top-level row, is expanded in the view, and the row of `item` itself is expanded or
collapsed as it was before; for every entity without a row in the view (one the filter hides,
or the root) the call changes nothing at all. The walk up the parents is a total function: it
is defined by recursion on the index, one step a level. -/
theorem ensureBookmarkVisible_expands_ancestors (m : BookmarksModel) (item : BookmarkItem)
    (v : TreeView) :
    (isValid (mapFromSource m (m.index item)) = true →
      (∀ t ∈ ancestors (m.index item),
        isExpanded (ensureBookmarkVisible m item v) (mapFromSource m t) = true) ∧
      isExpanded (ensureBookmarkVisible m item v) (mapFromSource m (m.index item))
        = isExpanded v (mapFromSource m (m.index item))) ∧
    (isValid (mapFromSource m (m.index item)) = false → ensureBookmarkVisible m item v = v) := by
  constructor
  · intro hrow
    have hsome : (filterRow m (m.index item)).isSome = true := by
      by_contra hc
      simp [mapFromSource, hc, isValid] at hrow
    have hmap : mapFromSource m (m.index item) = m.index item := by
      simp [mapFromSource, hsome]
    have hens : ensureBookmarkVisible m item v = expandParents m (m.index item).tail v := by
      simp [ensureBookmarkVisible, hmap, filterParent]
    rw [hens, hmap]
    constructor
    · intro t ht
      obtain ⟨hne, hsuf⟩ := ancestors_suffix t (m.index item) ht
      have hvis := ancestors_filterRow m t (m.index item) hsome ht
      have hmt : mapFromSource m t = t := by simp [mapFromSource, hvis]
      rw [hmt]
      exact expandParents_expands m t hne (m.index item).tail v hsuf
    · apply expandParents_other
      cases hidx : m.index item with
      | nil => rw [hidx] at hsome; simp [filterRow] at hsome
      | cons r above => simp
  · intro hrow
    have hnil : mapFromSource m (m.index item) = [] := by
      cases hmap : mapFromSource m (m.index item) with
      | nil => rfl
      | cons r above => rw [hmap] at hrow; simp [isValid] at hrow
    simp [ensureBookmarkVisible, hnil, filterParent, expandParents]

/-- C3 at concrete inputs: bookmark 2 of the example has the row 0 under the folder row 0; making
it visible expands the folder row and leaves the row of the bookmark collapsed. Bookmark 3 is
hidden by the filter; making it visible leaves the folder row collapsed. -/
theorem ensureBookmarkVisible_expands_ancestors_witness :
    isValid (mapFromSource exampleModel (exampleModel.index 2)) = true ∧
    isExpanded (ensureBookmarkVisible exampleModel 2 exampleView) [0] = true ∧
    isExpanded (ensureBookmarkVisible exampleModel 2 exampleView) [0, 0] = false ∧
    isValid (mapFromSource exampleModel (exampleModel.index 3)) = false ∧
    isExpanded (ensureBookmarkVisible exampleModel 3 exampleView) [0] = false :=
  have h := (ensureBookmarkVisible_expands_ancestors exampleModel 2 exampleView).1 (by decide)
  have h3 := (ensureBookmarkVisible_expands_ancestors exampleModel 3 exampleView).2 (by decide)
  ⟨by decide, h.1 [0] (by decide), h.2, by decide, by rw [h3]; rfl⟩

/-- C3 fails for an entity the filter hides: bookmark 3 of the example is the row 1 under the
folder row 0 in the store and has no row in the view; its parent, folder 1, has the row 0 of the
view, which is collapsed. The call looks the bookmark up, gets the invalid index, and the walk
does not start: the folder row is still collapsed. -/
theorem ensureBookmarkVisible_hidden_item :
    exampleModel.index 3 = [1, 0] ∧
    mapFromSource exampleModel (exampleModel.index 3) = [] ∧
    [0] ∈ ancestors (exampleModel.index 3) ∧
    exampleModel.item [0] = 1 ∧
    mapFromSource exampleModel [0] = [0] ∧
    isExpanded (ensureBookmarkVisible exampleModel 3 exampleView) (mapFromSource exampleModel [0])
      = false := by
  decide

/-- C4, as the code has it: given that exactly one row is selected when the handler counts the
selected rows, which is after the handler of the base class has run, and that the event position
is on a valid row: a press with the middle button as the only button held (`event->buttons()`
is `Qt::MiddleButton`) emits `bookmarkCtrlActivated` once and nothing else, and a double click
with the left button as the only button held and no keyboard modifier emits `bookmarkActivated`
once and nothing else; the entity is that of the row at the position. -/
theorem mouse_activation_on_row (m : BookmarksModel) (qt : Toolkit) (event : QMouseEvent)
    (v : TreeView) :
    ((selectedRows (qt.mousePressEvent event v)).length = 1 →
      isValid (qt.indexAt (qt.mousePressEvent event v) event.pos) = true →
      event.buttons = Qt.MiddleButton →
      (mousePressEvent m qt event v).2 = [Signal.bookmarkCtrlActivated
        (m.item (mapToSource m (qt.indexAt (qt.mousePressEvent event v) event.pos)))]) ∧
    ((selectedRows (qt.mouseDoubleClickEvent event v)).length = 1 →
      isValid (qt.indexAt (qt.mouseDoubleClickEvent event v) event.pos) = true →
      event.buttons = Qt.LeftButton → qt.keyboardModifiers = Qt.NoModifier →
      (mouseDoubleClickEvent m qt event v).2 = [Signal.bookmarkActivated
        (m.item (mapToSource m (qt.indexAt (qt.mouseDoubleClickEvent event v) event.pos)))]) := by
  constructor
  · intro hsel hvalid hbuttons
    have hne : ¬ Qt.MiddleButton = Qt.LeftButton := by decide
    simp [mousePressEvent, hsel, hvalid, hbuttons, hne]
  · intro hsel hvalid hbuttons hmod
    simp [mouseDoubleClickEvent, hsel, hvalid, hbuttons, hmod]

/-- C4 at a concrete input: with the folder row of the example selected, a middle press on the
row of bookmark 4 emits `bookmarkCtrlActivated` for it, and a plain left double click emits
`bookmarkActivated` for it. -/
theorem mouse_activation_on_row_witness :
    (mousePressEvent exampleModel (exampleToolkit Qt.NoModifier) ⟨(0, 0), Qt.MiddleButton⟩
      exampleView).2 = [Signal.bookmarkCtrlActivated 4] ∧
    (mouseDoubleClickEvent exampleModel (exampleToolkit Qt.NoModifier) ⟨(0, 0), Qt.LeftButton⟩
      exampleView).2 = [Signal.bookmarkActivated 4] :=
  ⟨(mouse_activation_on_row exampleModel (exampleToolkit Qt.NoModifier)
      ⟨(0, 0), Qt.MiddleButton⟩ exampleView).1 (by decide) (by decide) rfl,
    (mouse_activation_on_row exampleModel (exampleToolkit Qt.NoModifier)
      ⟨(0, 0), Qt.LeftButton⟩ exampleView).2 (by decide) (by decide) rfl rfl⟩

/-- C4 fails in four ways, each with the folder row of the example as the one selected row on
arrival. Off the rows: a middle press and a plain left double click at a position where the view
has no row emit nothing. Selection changed by the base class: a middle press on the row of
bookmark 4 with control held adds that row to the selection, the handler then counts two rows
and emits nothing. Another button held: a press on a valid row that arrives with the left and
the middle button held, and a plain double click that arrives with the left and the right
button held, emit nothing, since the handlers compare the word of held buttons with one
button. -/
theorem mouse_activation_not_always :
    ((selectedRows exampleView).length = 1 ∧
      (exampleToolkit Qt.NoModifier).indexAt exampleView (0, -1) = [] ∧
      (mousePressEvent exampleModel (exampleToolkit Qt.NoModifier) ⟨(0, -1), Qt.MiddleButton⟩
        exampleView).2 = [] ∧
      (mouseDoubleClickEvent exampleModel (exampleToolkit Qt.NoModifier)
        ⟨(0, -1), Qt.LeftButton⟩ exampleView).2 = []) ∧
    (isValid ((exampleQtToolkit Qt.ControlModifier).indexAt exampleView (0, 1)) = true ∧
      (selectedRows ((exampleQtToolkit Qt.ControlModifier).mousePressEvent
        ⟨(0, 1), Qt.MiddleButton⟩ exampleView)).length = 2 ∧
      (mousePressEvent exampleModel (exampleQtToolkit Qt.ControlModifier)
        ⟨(0, 1), Qt.MiddleButton⟩ exampleView).2 = []) ∧
    (isValid ((exampleToolkit Qt.NoModifier).indexAt exampleView (0, 0)) = true ∧
      (selectedRows ((exampleToolkit Qt.NoModifier).mousePressEvent
        ⟨(0, 0), Qt.LeftButton ||| Qt.MiddleButton⟩ exampleView)).length = 1 ∧
      (mousePressEvent exampleModel (exampleToolkit Qt.NoModifier)
        ⟨(0, 0), Qt.LeftButton ||| Qt.MiddleButton⟩ exampleView).2 = [] ∧
      (mouseDoubleClickEvent exampleModel (exampleToolkit Qt.NoModifier)
        ⟨(0, 0), Qt.LeftButton ||| Qt.RightButton⟩ exampleView).2 = []) := by
  decide

/-- C8, as the code has it: when the number of selected rows the handler finds, which it counts
after the handler of the base class has run, is not exactly one, a mouse press, a double click
and a key press emit no activation signal and leave the state (the expansion state of every row
and the flags of every entity with it) exactly as the handler of the base class left it; so do
a mouse press and a double click at a position that is not on a valid row. -/
theorem handlers_suppressed (m : BookmarksModel) (qt : Toolkit) (v : TreeView) :
    (∀ event : QMouseEvent,
      (selectedRows (qt.mousePressEvent event v)).length ≠ 1 ∨
        isValid (qt.indexAt (qt.mousePressEvent event v) event.pos) = false →
      (mousePressEvent m qt event v).2 = [] ∧
      (mousePressEvent m qt event v).1 = qt.mousePressEvent event v) ∧
    (∀ event : QMouseEvent,
      (selectedRows (qt.mouseDoubleClickEvent event v)).length ≠ 1 ∨
        isValid (qt.indexAt (qt.mouseDoubleClickEvent event v) event.pos) = false →
      (mouseDoubleClickEvent m qt event v).2 = [] ∧
      (mouseDoubleClickEvent m qt event v).1 = qt.mouseDoubleClickEvent event v) ∧
    (∀ event : QKeyEvent,
      (selectedRows (qt.keyPressEvent event v)).length ≠ 1 →
      (keyPressEvent m qt event v).2 = [] ∧
      (keyPressEvent m qt event v).1 = qt.keyPressEvent event v) := by
  refine ⟨?_, ?_, ?_⟩
  · intro event h
    unfold mousePressEvent
    rcases h with h | h
    · simp [h]
    · by_cases hs : (selectedRows (qt.mousePressEvent event v)).length = 1 <;> simp [hs, h]
  · intro event h
    unfold mouseDoubleClickEvent
    rcases h with h | h
    · simp [h]
    · by_cases hs : (selectedRows (qt.mouseDoubleClickEvent event v)).length = 1 <;> simp [hs, h]
  · intro event h
    simp [keyPressEvent, h]

/-- C8 at a concrete input: with no row selected in the example, a middle press on a row, a
plain double click on a row and the Return key emit nothing and leave the rows collapsed. -/
theorem handlers_suppressed_witness :
    (mousePressEvent exampleModel (exampleToolkit Qt.NoModifier) ⟨(0, 0), Qt.MiddleButton⟩
      { exampleView with selection := [] }).2 = [] ∧
    (mouseDoubleClickEvent exampleModel (exampleToolkit Qt.NoModifier) ⟨(0, 0), Qt.LeftButton⟩
      { exampleView with selection := [] }).2 = [] ∧
    (keyPressEvent exampleModel (exampleToolkit Qt.NoModifier) ⟨Qt.Key_Return, Qt.NoModifier⟩
      { exampleView with selection := [] }).2 = [] :=
  have h := handlers_suppressed exampleModel (exampleToolkit Qt.NoModifier)
    { exampleView with selection := [] }
  ⟨(h.1 ⟨(0, 0), Qt.MiddleButton⟩ (Or.inl (by decide))).1,
    (h.2.1 ⟨(0, 0), Qt.LeftButton⟩ (Or.inl (by decide))).1,
    (h.2.2 ⟨Qt.Key_Return, Qt.NoModifier⟩ (by decide)).1⟩

/-- C8 fails as worded, for the handler of the base class runs first. With no row selected on
arrival, a middle press on the row of bookmark 4 is first handled by the base class, which
selects the row; the handler then counts one row and emits `bookmarkCtrlActivated`. With both
top-level rows selected, a left double click on the collapsed folder row is first handled by
the base class, which expands the row; the slot `indexExpanded` sets the sidebar flag of the
folder, and the handler, counting two rows, leaves it at that: a row changed its expansion state
and an entity its flag. -/
theorem handlers_not_suppressed_as_worded :
    ((selectedRows { exampleView with selection := [] }).length = 0 ∧
      (mousePressEvent exampleModel (exampleQtToolkit Qt.NoModifier) ⟨(0, 1), Qt.MiddleButton⟩
        { exampleView with selection := [] }).2 = [Signal.bookmarkCtrlActivated 4]) ∧
    ((selectedRows exampleTwoSelected).length = 2 ∧
      (selectedRows ((exampleQtToolkit Qt.NoModifier).mouseDoubleClickEvent
        ⟨(0, 0), Qt.LeftButton⟩ exampleTwoSelected)).length = 2 ∧
      isExpanded exampleTwoSelected [0] = false ∧
      exampleTwoSelected.m_bookmarks.sidebarExpanded 1 = false ∧
      isExpanded (mouseDoubleClickEvent exampleModel (exampleQtToolkit Qt.NoModifier)
        ⟨(0, 0), Qt.LeftButton⟩ exampleTwoSelected).1 [0] = true ∧
      (mouseDoubleClickEvent exampleModel (exampleQtToolkit Qt.NoModifier)
        ⟨(0, 0), Qt.LeftButton⟩ exampleTwoSelected).1.m_bookmarks.sidebarExpanded 1
          = true) := by
  decide

/-- C9, as the code has it: given that exactly one row is selected when the handler counts the
selected rows, which is after the handler of the base class has run, on a key press of Return or
Enter with modifiers `m` on the entity of the selected row: if the entity is a folder and `m` is
empty, the expansion of the row is toggled, no other row changes and no activation signal is
emitted; if the entity is not a folder and `m` is empty, `bookmarkActivated` is emitted once; if
`m` is control alone, `bookmarkCtrlActivated` once; if `m` is shift alone,
`bookmarkShiftActivated` once; if `m` is Alt alone, nothing is emitted; in these four cases the
state is left as the handler of the base class left it. On every other key nothing is emitted
and nothing is toggled. Other modifier words are not spoken of. -/
theorem keyPressEvent_enter_return (m : BookmarksModel) (qt : Toolkit) (event : QKeyEvent)
    (v : TreeView) (hsel : (selectedRows (qt.keyPressEvent event v)).length = 1) :
    (event.key = Qt.Key_Return ∨ event.key = Qt.Key_Enter →
      ((qt.keyPressEvent event v).m_bookmarks.isFolder
          (m.item (mapToSource m (keyRow qt event v))) = true ∧
        event.modifiers = Qt.NoModifier →
        (keyPressEvent m qt event v).2 = [] ∧
        isExpanded (keyPressEvent m qt event v).1 (keyRow qt event v)
          = !isExpanded (qt.keyPressEvent event v) (keyRow qt event v) ∧
        ∀ t, t ≠ keyRow qt event v →
          isExpanded (keyPressEvent m qt event v).1 t = isExpanded (qt.keyPressEvent event v) t) ∧
      ((qt.keyPressEvent event v).m_bookmarks.isFolder
          (m.item (mapToSource m (keyRow qt event v))) = false ∧
        event.modifiers = Qt.NoModifier →
        keyPressEvent m qt event v = (qt.keyPressEvent event v,
          [Signal.bookmarkActivated (m.item (mapToSource m (keyRow qt event v)))])) ∧
      (event.modifiers = Qt.ControlModifier →
        keyPressEvent m qt event v = (qt.keyPressEvent event v,
          [Signal.bookmarkCtrlActivated (m.item (mapToSource m (keyRow qt event v)))])) ∧
      (event.modifiers = Qt.ShiftModifier →
        keyPressEvent m qt event v = (qt.keyPressEvent event v,
          [Signal.bookmarkShiftActivated (m.item (mapToSource m (keyRow qt event v)))])) ∧
      (event.modifiers = Qt.AltModifier →
        keyPressEvent m qt event v = (qt.keyPressEvent event v, []))) ∧
    (event.key ≠ Qt.Key_Return → event.key ≠ Qt.Key_Enter →
      (keyPressEvent m qt event v).2 = [] ∧
      (keyPressEvent m qt event v).1 = qt.keyPressEvent event v) := by
  have hidx : keyRow qt event v ≠ [] :=
    selectedRows_headD_ne_nil (qt.keyPressEvent event v) hsel
  have helse : ∀ hnot : ¬ ((qt.keyPressEvent event v).m_bookmarks.isFolder
        (m.item (mapToSource m (keyRow qt event v))) = true ∧
      event.modifiers = Qt.NoModifier),
      event.key = Qt.Key_Return ∨ event.key = Qt.Key_Enter →
      keyPressEvent m qt event v =
        (if event.modifiers = Qt.NoModifier then
          (qt.keyPressEvent event v,
            [Signal.bookmarkActivated (m.item (mapToSource m (keyRow qt event v)))])
        else if event.modifiers = Qt.ControlModifier then
          (qt.keyPressEvent event v,
            [Signal.bookmarkCtrlActivated (m.item (mapToSource m (keyRow qt event v)))])
        else if event.modifiers = Qt.ShiftModifier then
          (qt.keyPressEvent event v,
            [Signal.bookmarkShiftActivated (m.item (mapToSource m (keyRow qt event v)))])
        else (qt.keyPressEvent event v, [])) := by
    intro hnot hkey
    have hn := hnot
    unfold keyRow at hn ⊢
    unfold keyPressEvent
    dsimp only
    rw [if_pos hsel, if_pos hkey, if_neg hn]
  refine ⟨?_, ?_⟩
  · intro hkey
    refine ⟨?_, ?_, ?_, ?_, ?_⟩
    · intro hfolder
      have hrun : keyPressEvent m qt event v =
          (setExpanded m (keyRow qt event v)
            (!isExpanded (qt.keyPressEvent event v) (keyRow qt event v))
            (qt.keyPressEvent event v), []) := by
        have hf := hfolder
        unfold keyRow at hf ⊢
        unfold keyPressEvent
        dsimp only
        rw [if_pos hsel, if_pos hkey, if_pos hf]
      rw [hrun]
      refine ⟨rfl, ?_, ?_⟩
      · exact setExpanded_self m _ _ _ hidx
      · intro t ht
        exact setExpanded_other m _ t _ _ ht
    · intro hbookmark
      rw [helse (by rw [hbookmark.1]; simp) hkey, if_pos hbookmark.2]
    · intro hm
      rw [helse (by rw [hm]; simp [Qt.ControlModifier, Qt.NoModifier]) hkey,
        if_neg (by rw [hm]; decide), if_pos hm]
    · intro hm
      rw [helse (by rw [hm]; simp [Qt.ShiftModifier, Qt.NoModifier]) hkey,
        if_neg (by rw [hm]; decide), if_neg (by rw [hm]; decide), if_pos hm]
    · intro hm
      rw [helse (by rw [hm]; simp [Qt.AltModifier, Qt.NoModifier]) hkey,
        if_neg (by rw [hm]; decide), if_neg (by rw [hm]; decide),
        if_neg (by rw [hm]; decide)]
  · intro h1 h2
    have hkey : ¬ (event.key = Qt.Key_Return ∨ event.key = Qt.Key_Enter) := by
      rintro (h | h)
      · exact h1 h
      · exact h2 h
    have hrun : keyPressEvent m qt event v = (qt.keyPressEvent event v, []) := by
      unfold keyPressEvent
      dsimp only
      rw [if_pos hsel, if_neg hkey]
    rw [hrun]
    exact ⟨rfl, rfl⟩

/-- C9 at a concrete input: with the folder row of the example selected and collapsed, a plain
Return expands it without a signal, and Return with control emits `bookmarkCtrlActivated` for
the folder. -/
theorem keyPressEvent_enter_return_witness :
    (keyPressEvent exampleModel (exampleToolkit Qt.NoModifier) ⟨Qt.Key_Return, Qt.NoModifier⟩
      exampleView).2 = [] ∧
    isExpanded (keyPressEvent exampleModel (exampleToolkit Qt.NoModifier)
      ⟨Qt.Key_Return, Qt.NoModifier⟩ exampleView).1 [0] = true ∧
    (keyPressEvent exampleModel (exampleToolkit Qt.NoModifier)
      ⟨Qt.Key_Return, Qt.ControlModifier⟩ exampleView).2 = [Signal.bookmarkCtrlActivated 1] :=
  have h1 := ((keyPressEvent_enter_return exampleModel (exampleToolkit Qt.NoModifier)
    ⟨Qt.Key_Return, Qt.NoModifier⟩ exampleView (by decide)).1 (Or.inl rfl)).1 (by decide)
  have h2 := ((keyPressEvent_enter_return exampleModel (exampleToolkit Qt.NoModifier)
    ⟨Qt.Key_Return, Qt.ControlModifier⟩ exampleView (by decide)).1 (Or.inl rfl)).2.2.1 rfl
  ⟨h1.1, h1.2.1, congrArg Prod.snd h2⟩

/-- C9 fails for the Alt modifier: with the row of bookmark 4 the one selected row (the base
handler of the example leaves the selection alone), Return with Alt held is not the folder case,
and no activation signal is emitted. -/
theorem keyPressEvent_alt_return :
    (selectedRows ((exampleToolkit Qt.NoModifier).keyPressEvent ⟨Qt.Key_Return, Qt.AltModifier⟩
      { exampleView with selection := [(1, [])] })).length = 1 ∧
    exampleModel.item (mapToSource exampleModel [1]) = 4 ∧
    exampleBookmarks.isFolder 4 = false ∧
    (keyPressEvent exampleModel (exampleToolkit Qt.NoModifier) ⟨Qt.Key_Return, Qt.AltModifier⟩
      { exampleView with selection := [(1, [])] }).2 = [] := by
  decide

/-- C10 at the failing input: with exactly one row selected, a press on the valid row of
bookmark 4 with the right button as the only button held and the control modifier emits
`bookmarkCtrlActivated`. The second test of the handler reads
`buttons == Qt::MiddleButton || modifiers == Qt::ControlModifier` and does not look at the
button when control is held, unlike the shift test before it. -/
theorem mousePressEvent_right_button_control :
    (selectedRows ((exampleToolkit Qt.ControlModifier).mousePressEvent ⟨(0, 0), Qt.RightButton⟩
      exampleView)).length = 1 ∧
    isValid ((exampleToolkit Qt.ControlModifier).indexAt exampleView (0, 0)) = true ∧
    (mousePressEvent exampleModel (exampleToolkit Qt.ControlModifier) ⟨(0, 0), Qt.RightButton⟩
      exampleView).2 = [Signal.bookmarkCtrlActivated 4] := by
  decide

end BookmarksTreeView
